import Mathlib

/-!
Verification of the sentiment review service (`src/app.py`).

The development shallowly embeds the two core components:

* the classifier `sentiment_comment` (pure Python function, lines 58-93),
  embedded as a Lean function over `String`;
* the store (SQLite table `reviews` with its CHECK constraint,
  AUTOINCREMENT primary key, and the `SELECT ... ORDER BY id` query),
  embedded as explicit state passing over a list of rows;
* the two Flask handlers `add_review` and `get_reviews`, embedded as
  functions from request data and store state to a result and a new state.

Machine-level details that cannot influence the claims (HTTP transport,
JSON encoding, logging, the connection object) are outside the embedding.
-/

namespace Sentiment

/-- The set of characters Python's `str.split()` and `str.strip()` treat as
whitespace, restricted to the ASCII whitespace characters. -/
def isPySpace (c : Char) : Bool :=
  c = ' ' || c = '\t' || c = '\n' || c = '\r' || c = '\x0b' || c = '\x0c'

/-- Python `str.lower()` on a single character, restricted to ASCII letters
and the Russian Cyrillic alphabet (А-Я maps to а-я, Ё to ё) — the only
alphabets occurring in the stem lists and negation marker of `app.py`.
Uppercase Cyrillic А (U+0410) through Я (U+042F) lowercase by adding 0x20,
exactly as ASCII does. -/
def pyLowerChar (c : Char) : Char :=
  if 'A' ≤ c ∧ c ≤ 'Z' then Char.ofNat (c.toNat + 32)
  else if 'А' ≤ c ∧ c ≤ 'Я' then Char.ofNat (c.toNat + 32)
  else if c = 'Ё' then 'ё'
  else c

/-- Python `review.lower()` (line 70), character by character. -/
def pyLower (s : String) : String := ⟨s.toList.map pyLowerChar⟩

/-- Core of Python `str.split()` with no argument: split on runs of
whitespace, producing no empty tokens.  `acc` holds the current in-progress
word, reversed. -/
def splitAux : List Char → List Char → List (List Char)
  | [], acc => if acc.isEmpty then [] else [acc.reverse]
  | c :: cs, acc =>
    if isPySpace c then
      if acc.isEmpty then splitAux cs []
      else acc.reverse :: splitAux cs []
    else splitAux cs (c :: acc)

/-- Python `str.split()` with no argument. -/
def pySplit (s : String) : List String :=
  (splitAux s.toList []).map (fun l => ⟨l⟩)

/-- Line 70: `words = review.lower().split()`. -/
def tokens (review : String) : List String := pySplit (pyLower review)

/-- Line 65: the tuple `positive_words`. -/
def positive_words : List String :=
  ["хорош", "люблю", "любим", "отличн", "обожа",
   "прекрасн", "замечательн", "классн", "кайф", "приятн"]

/-- Line 66: the tuple `negative_words`. -/
def negative_words : List String :=
  ["плох", "ужас", "ненавиж", "отвра", "отстой"]

/-- Python `word.startswith(stem)`. -/
def startsWithStem (word stem : String) : Bool :=
  stem.toList.isPrefixOf word.toList

/-- Python `word[:2]` — the first two characters of the token (or fewer if
the token is shorter). -/
def pySlice2 (word : String) : String := ⟨word.toList.take 2⟩

/-- Line 74 / line 80 match tests: `any(word.startswith(w) for w in ...)`. -/
def matchesAny (word : String) (stems : List String) : Bool :=
  stems.any (fun stem => startsWithStem word stem)

/-- Lines 76 and 82: the negation test
`word[:2] == 'не' or (i > 0 and words[i-1] == 'не')`.  `prev` is
`words[i-1]` when `i > 0` and `none` when `i = 0`. -/
def negationHolds (word : String) (prev : Option String) : Bool :=
  pySlice2 word == "не" || prev == some "не"

/-- The loop of lines 73-85: walk the token list carrying the previous token
(`prev`) and the pair `(positive_count, negative_count)`. -/
def countsAux : Option String → List String → Nat × Nat → Nat × Nat
  | _, [], acc => acc
  | prev, w :: ws, (p, n) =>
    if matchesAny w positive_words then
      if negationHolds w prev then countsAux (some w) ws (p, n + 1)
      else countsAux (some w) ws (p + 1, n)
    else if matchesAny w negative_words then
      if negationHolds w prev then countsAux (some w) ws (p + 1, n)
      else countsAux (some w) ws (p, n + 1)
    else countsAux (some w) ws (p, n)

/-- The final counter pair `(positive_count, negative_count)` produced by
lines 67-85 for a given input string. -/
def counts (review : String) : Nat × Nat :=
  countsAux none (tokens review) (0, 0)

/-- Lines 58-93: `sentiment_comment(review)`. -/
def sentiment_comment (review : String) : String :=
  let c := counts review
  if c.1 > c.2 then "positive"
  else if c.2 > c.1 then "negative"
  else "neutral"

example : sentiment_comment "" = "neutral" := by decide
example : sentiment_comment "ненавижу" = "positive" := by decide
example : sentiment_comment "Хороший фильм" = "positive" := by decide
example : sentiment_comment "не хороший" = "negative" := by decide
example : sentiment_comment "нехороший" = "neutral" := by decide
example : sentiment_comment "плохой" = "negative" := by decide
example : sentiment_comment "не плохой" = "positive" := by decide
example : sentiment_comment "хороший плохой" = "neutral" := by decide

/-- Python `str.strip()` with no argument: remove leading and trailing
whitespace (lines 105 and 128). -/
def pyStrip (s : String) : String :=
  ⟨((s.toList.dropWhile isPySpace).reverse.dropWhile isPySpace).reverse⟩

/-- One row of the `reviews` table created by `SQL_INIT_DB` (lines 16-25):
columns `id` (INTEGER PRIMARY KEY AUTOINCREMENT), `text`, `sentiment`,
`created_at`. -/
structure Review where
  id : Nat
  text : String
  sentiment : String
  created_at : String
deriving DecidableEq, Repr

/-- The CHECK constraint of the schema (line 22):
`sentiment in ('positive', 'negative', 'neutral')`. -/
def validSentiment (s : String) : Bool :=
  s == "positive" || s == "negative" || s == "neutral"

/-- The persistent state: the rows of the `reviews` table together with the
next AUTOINCREMENT value.  SQLite AUTOINCREMENT guarantees `nextId` is
strictly larger than every id ever assigned, so ids are never reused. -/
structure Store where
  table : List Review
  nextId : Nat
deriving DecidableEq, Repr

/-- Outcome of executing the INSERT statement of line 113. -/
inductive InsertOutcome where
  | inserted : Nat → InsertOutcome
  | constraintError : InsertOutcome
deriving DecidableEq, Repr

/-- The INSERT of lines 113-115 executed against the schema: if the CHECK
constraint on `sentiment` passes, one row is appended with the fresh
AUTOINCREMENT id (returned as `lastrowid`) and committed; otherwise the
statement fails with a constraint error and the table is unchanged (the
failed statement is never committed). -/
def insertReview (st : Store) (text sentiment created_at : String) :
    InsertOutcome × Store :=
  if validSentiment sentiment then
    (InsertOutcome.inserted st.nextId,
     ⟨st.table ++ [⟨st.nextId, text, sentiment, created_at⟩], st.nextId + 1⟩)
  else (InsertOutcome.constraintError, st)

/-- Comparison used by `ORDER BY id` (line 27). -/
def idLe (a b : Review) : Prop := a.id ≤ b.id

instance : DecidableRel idLe := fun a b => Nat.decLe a.id b.id

instance : IsTotal Review idLe := ⟨fun a b => Nat.le_total a.id b.id⟩

instance : IsTrans Review idLe := ⟨fun _ _ _ hab hbc => Nat.le_trans hab hbc⟩

/-- The query `SQL_GET_REVIEWS` (line 27), with the optional WHERE clause
`SQL_GET_REVIEWS_WHERE` (line 28): select the rows whose `sentiment` equals
the filter (all rows when no filter), ordered by `id`. -/
def sqlGetReviews (table : List Review) (filt : Option String) : List Review :=
  let rows := match filt with
    | none => table
    | some f => table.filter (fun r => r.sentiment == f)
  List.insertionSort idLe rows

/-- Response of the GET /reviews handler: a 200 row list or a 400 error. -/
inductive GetResult where
  | ok : List Review → GetResult
  | badRequest : GetResult
deriving DecidableEq, Repr

/-- Lines 122-145: `get_reviews`.  The `sentiment` query parameter defaults
to `''` when omitted (line 128), is stripped and lowercased, and must be one
of the three labels or empty; otherwise the handler raises before any query
runs and returns 400.  The handler never modifies the table. -/
def get_reviews (table : List Review) (sentimentParam : String) : GetResult :=
  let s := pyLower (pyStrip sentimentParam)
  if s == "positive" || s == "negative" || s == "neutral" || s == "" then
    GetResult.ok (sqlGetReviews table (if s == "" then none else some s))
  else GetResult.badRequest

/-- Response of the POST /reviews handler: the persisted review as returned
to the client, or a 400 error. -/
inductive PostResult where
  | ok : Review → PostResult
  | badRequest : PostResult
deriving DecidableEq, Repr

/-- Lines 95-119: `add_review`.  `textAttr` is the request body's `text`
attribute (`none` when the attribute is missing, in which case the handler
raises and returns 400 without touching the store).  Otherwise the text is
stripped, classified, and inserted with the current timestamp; on a
constraint error the exception path returns 400 and nothing is committed. -/
def add_review (st : Store) (textAttr : Option String) (now : String) :
    PostResult × Store :=
  match textAttr with
  | none => (PostResult.badRequest, st)
  | some t =>
    let review := pyStrip t
    let sent := sentiment_comment review
    match insertReview st review sent now with
    | (InsertOutcome.inserted newId, st1) =>
        (PostResult.ok ⟨newId, review, sent, now⟩, st1)
    | (InsertOutcome.constraintError, _) => (PostResult.badRequest, st)

example : get_reviews [] "" = GetResult.ok [] := by decide
example : get_reviews [] "  Positive " = GetResult.ok [] := by decide
example : get_reviews [] "bogus" = GetResult.badRequest := by decide
example :
    add_review ⟨[], 1⟩ (some "  Отличный фильм  ") "t" =
      (PostResult.ok ⟨1, "Отличный фильм", "positive", "t"⟩,
       ⟨[⟨1, "Отличный фильм", "positive", "t"⟩], 2⟩) := by decide

/-! ### Helper lemmas -/

lemma negationHolds_iff (w : String) (prev : Option String) :
    negationHolds w prev = true ↔ (pySlice2 w = "не" ∨ prev = some "не") := by
  simp [negationHolds]

lemma sentiment_comment_eq_ite (s : String) :
    sentiment_comment s =
      if (counts s).1 > (counts s).2 then "positive"
      else if (counts s).2 > (counts s).1 then "negative" else "neutral" := rfl

lemma splitAux_all_space (l : List Char) (h : ∀ c ∈ l, isPySpace c = true) :
    splitAux l [] = [] := by
  induction l with
  | nil => rfl
  | cons c cs ih =>
      have hc : isPySpace c = true := h c (List.mem_cons_self c cs)
      have hrest : ∀ x ∈ cs, isPySpace x = true :=
        fun x hx => h x (List.mem_cons_of_mem c hx)
      simp [splitAux, hc, ih hrest]

lemma pyLowerChar_space (c : Char) (h : isPySpace c = true) : pyLowerChar c = c := by
  simp only [isPySpace, Bool.or_eq_true, decide_eq_true_eq] at h
  rcases h with ((((h | h) | h) | h) | h) | h <;> subst h <;> decide

lemma tokens_all_space (s : String) (h : ∀ c ∈ s.toList, isPySpace c = true) :
    tokens s = [] := by
  have hmap : ∀ c ∈ (pyLower s).toList, isPySpace c = true := by
    intro c hc
    have heq : (pyLower s).toList = s.toList.map pyLowerChar := rfl
    rw [heq] at hc
    rcases List.mem_map.mp hc with ⟨d, hd, rfl⟩
    rw [pyLowerChar_space d (h d hd)]
    exact h d hd
  unfold tokens pySplit
  rw [splitAux_all_space _ hmap]
  rfl

/-! ### Claims about the classifier -/

/-- C1: for every token matched against the stems during the scan, the
contribution is inverted exactly when the token's first two characters are
"не" or the immediately preceding token is exactly "не": an inverted
positive-raw match increments `negative_count`, an inverted negative-raw
match increments `positive_count`, and a non-inverted match increments the
counter of its raw polarity. -/
theorem countsAux_inversion (prev : Option String) (w : String) (ws : List String)
    (p n : Nat) :
    (matchesAny w positive_words = true →
      (pySlice2 w = "не" ∨ prev = some "не") →
        countsAux prev (w :: ws) (p, n) = countsAux (some w) ws (p, n + 1)) ∧
    (matchesAny w positive_words = true →
      ¬(pySlice2 w = "не" ∨ prev = some "не") →
        countsAux prev (w :: ws) (p, n) = countsAux (some w) ws (p + 1, n)) ∧
    (matchesAny w positive_words = false → matchesAny w negative_words = true →
      (pySlice2 w = "не" ∨ prev = some "не") →
        countsAux prev (w :: ws) (p, n) = countsAux (some w) ws (p + 1, n)) ∧
    (matchesAny w positive_words = false → matchesAny w negative_words = true →
      ¬(pySlice2 w = "не" ∨ prev = some "не") →
        countsAux prev (w :: ws) (p, n) = countsAux (some w) ws (p, n + 1)) := by
  have hfalse : ∀ hneg : ¬(pySlice2 w = "не" ∨ prev = some "не"),
      negationHolds w prev = false := by
    intro hneg
    rcases Bool.eq_false_or_eq_true (negationHolds w prev) with h | h
    · exact absurd ((negationHolds_iff w prev).mp h) hneg
    · exact h
  refine ⟨fun hp hneg => ?_, fun hp hneg => ?_,
    fun hp hn hneg => ?_, fun hp hn hneg => ?_⟩
  · have h2 : negationHolds w prev = true := (negationHolds_iff w prev).mpr hneg
    simp [countsAux, hp, h2]
  · simp [countsAux, hp, hfalse hneg]
  · have h2 : negationHolds w prev = true := (negationHolds_iff w prev).mpr hneg
    simp [countsAux, hp, hn, h2]
  · simp [countsAux, hp, hn, hfalse hneg]

theorem countsAux_inversion_witness :
    countsAux (some "не") ["хороший"] (0, 0) = countsAux (some "хороший") [] (0, 1) :=
  (countsAux_inversion (some "не") "хороший" [] 0 0).1 (by decide) (Or.inr rfl)

/-- C2: the final label is "positive" exactly when `positive_count >
negative_count` after processing all tokens, "negative" exactly when
`negative_count > positive_count`, and "neutral" otherwise (including 0/0
and exact ties). -/
theorem sentiment_comment_final_label (s : String) :
    (sentiment_comment s = "positive" ↔ (counts s).1 > (counts s).2) ∧
    (sentiment_comment s = "negative" ↔ (counts s).2 > (counts s).1) ∧
    (sentiment_comment s = "neutral" ↔
      ¬(counts s).1 > (counts s).2 ∧ ¬(counts s).2 > (counts s).1) := by
  rw [sentiment_comment_eq_ite]
  split_ifs with h1 h2
  · exact ⟨⟨fun _ => h1, fun _ => rfl⟩,
      ⟨fun hx => absurd hx (by decide), fun hx => absurd h1 (by omega)⟩,
      ⟨fun hx => absurd hx (by decide), fun hx => absurd h1 hx.1⟩⟩
  · exact ⟨⟨fun hx => absurd hx (by decide), fun hx => absurd hx h1⟩,
      ⟨fun _ => h2, fun _ => rfl⟩,
      ⟨fun hx => absurd hx (by decide), fun hx => absurd h2 hx.2⟩⟩
  · exact ⟨⟨fun hx => absurd hx (by decide), fun hx => absurd hx h1⟩,
      ⟨fun hx => absurd hx (by decide), fun hx => absurd hx h2⟩,
      ⟨fun _ => ⟨h1, h2⟩, fun _ => rfl⟩⟩

theorem sentiment_comment_final_label_witness :
    sentiment_comment "хорошо" = "positive" :=
  ((sentiment_comment_final_label "хорошо").1).mpr (by decide)

/-- C3: for every string (including the empty string) the classifier
terminates and returns exactly one of the three labels. -/
theorem sentiment_comment_total (s : String) :
    sentiment_comment s = "positive" ∨ sentiment_comment s = "negative" ∨
      sentiment_comment s = "neutral" := by
  rw [sentiment_comment_eq_ite]
  split_ifs <;> simp

/-- C4: an empty or whitespace-only input tokenizes to zero tokens and
classifies as "neutral". -/
theorem whitespace_only_neutral (s : String)
    (h : ∀ c ∈ s.toList, isPySpace c = true) :
    tokens s = [] ∧ sentiment_comment s = "neutral" := by
  have ht := tokens_all_space s h
  refine ⟨ht, ?_⟩
  have hc : counts s = (0, 0) := by unfold counts; rw [ht]; rfl
  rw [sentiment_comment_eq_ite, hc]
  decide

theorem whitespace_only_neutral_witness :
    tokens "  " = [] ∧ sentiment_comment "  " = "neutral" :=
  whitespace_only_neutral "  " (by decide)

lemma toList_of_nenavizh (w : String) (h : startsWithStem w "ненавиж" = true) :
    ∃ t, w.toList = 'н' :: 'е' :: 'н' :: 'а' :: 'в' :: 'и' :: 'ж' :: t := by
  unfold startsWithStem at h
  rcases List.isPrefixOf_iff_prefix.mp h with ⟨t, ht⟩
  exact ⟨t, by rw [← ht]; rfl⟩

/-- C10: any token starting with the negative stem "ненавиж" necessarily has
"не" as its first two characters, so it always passes the self-negation
check and increments `positive_count`, never `negative_count`; in
particular `sentiment_comment "ненавижу" = "positive"`. -/
theorem nenavizh_always_positive (prev : Option String) (w : String) (ws : List String)
    (p n : Nat) (h : startsWithStem w "ненавиж" = true) :
    pySlice2 w = "не" ∧
    countsAux prev (w :: ws) (p, n) = countsAux (some w) ws (p + 1, n) ∧
    sentiment_comment "ненавижу" = "positive" := by
  rcases toList_of_nenavizh w h with ⟨t, hw⟩
  have hslice : pySlice2 w = "не" := by
    unfold pySlice2; rw [hw]; rfl
  have hpos : matchesAny w positive_words = false := by
    simp only [matchesAny, startsWithStem, positive_words, hw]
    simp [List.isPrefixOf]
  have hneg : matchesAny w negative_words = true := by
    simp only [matchesAny, startsWithStem, negative_words, hw]
    simp [List.isPrefixOf]
  have hnegation : negationHolds w prev = true := by
    unfold negationHolds
    rw [hslice]
    rfl
  exact ⟨hslice, by simp [countsAux, hpos, hneg, hnegation], by decide⟩

theorem nenavizh_always_positive_witness :
    pySlice2 "ненавижу" = "не" ∧
    countsAux none ["ненавижу"] (0, 0) = countsAux (some "ненавижу") [] (1, 0) ∧
    sentiment_comment "ненавижу" = "positive" :=
  nenavizh_always_positive none "ненавижу" [] 0 0 (by decide)

/-! ### Claims about the store -/

lemma validSentiment_sentiment_comment (s : String) :
    validSentiment (sentiment_comment s) = true := by
  rw [sentiment_comment_eq_ite]
  split_ifs <;> rfl

/-- C8: an insert whose `sentiment` is outside the three-value enumeration
fails the CHECK constraint and leaves the set of persisted reviews
unchanged. -/
theorem insertReview_invalid_sentiment (st : Store) (t s cat : String)
    (h1 : s ≠ "positive") (h2 : s ≠ "negative") (h3 : s ≠ "neutral") :
    insertReview st t s cat = (InsertOutcome.constraintError, st) := by
  have hv : validSentiment s = false := by
    simp [validSentiment, h1, h2, h3]
  simp [insertReview, hv]

theorem insertReview_invalid_sentiment_witness :
    insertReview ⟨[], 1⟩ "txt" "bogus" "now" = (InsertOutcome.constraintError, ⟨[], 1⟩) :=
  insertReview_invalid_sentiment ⟨[], 1⟩ "txt" "bogus" "now"
    (by decide) (by decide) (by decide)

/-- C9: ids are assigned by the store at insert time (the returned id is
the store's next AUTOINCREMENT value), are distinct from every already
persisted id (never reused), keep the table's ids unique, preserve the
bound `id < nextId`, and two successful sequential inserts receive strictly
increasing ids. -/
theorem insert_ids_monotonic (st st1 st2 : Store) (t1 s1 c1 t2 s2 c2 : String)
    (i1 i2 : Nat)
    (hinv : ∀ r ∈ st.table, r.id < st.nextId)
    (h1 : insertReview st t1 s1 c1 = (InsertOutcome.inserted i1, st1))
    (h2 : insertReview st1 t2 s2 c2 = (InsertOutcome.inserted i2, st2)) :
    i1 = st.nextId ∧
    (∀ r ∈ st.table, r.id ≠ i1) ∧
    (∀ r ∈ st1.table, r.id < st1.nextId) ∧
    ((st.table.map Review.id).Nodup → (st1.table.map Review.id).Nodup) ∧
    i1 < i2 := by
  by_cases hv1 : validSentiment s1 = true
  case neg =>
    rw [insertReview] at h1
    simp [hv1] at h1
  rw [insertReview] at h1
  simp only [hv1, if_true, Prod.mk.injEq, InsertOutcome.inserted.injEq] at h1
  obtain ⟨hi1, hst1⟩ := h1
  subst hi1
  subst hst1
  by_cases hv2 : validSentiment s2 = true
  case neg =>
    rw [insertReview] at h2
    simp [hv2] at h2
  rw [insertReview] at h2
  simp only [hv2, if_true, Prod.mk.injEq, InsertOutcome.inserted.injEq] at h2
  obtain ⟨hi2, _⟩ := h2
  have hi2' : st.nextId + 1 = i2 := hi2
  refine ⟨rfl, ?_, ?_, ?_, ?_⟩
  · exact fun r hr => Nat.ne_of_lt (hinv r hr)
  · intro r hr
    rcases List.mem_append.mp hr with hr | hr
    · exact Nat.lt_succ_of_lt (hinv r hr)
    · rcases List.mem_singleton.mp hr with rfl
      exact Nat.lt_succ_self _
  · intro hn
    rw [List.map_append, List.nodup_append]
    refine ⟨hn, List.nodup_singleton _, ?_⟩
    intro a ha hb
    rcases List.mem_map.mp ha with ⟨r, hr, rfl⟩
    rcases List.mem_singleton.mp hb with h
    exact absurd (h ▸ hinv r hr) (Nat.lt_irrefl _)
  · omega

theorem insert_ids_monotonic_witness :
    (1 : Nat) = Store.nextId ⟨[], 1⟩ ∧
    (∀ r ∈ Store.table ⟨[], 1⟩, r.id ≠ 1) ∧
    (∀ r ∈ Store.table ⟨[⟨1, "a", "neutral", "t"⟩], 2⟩,
        r.id < Store.nextId ⟨[⟨1, "a", "neutral", "t"⟩], 2⟩) ∧
    ((Store.table ⟨[], 1⟩ |>.map Review.id).Nodup →
        (Store.table ⟨[⟨1, "a", "neutral", "t"⟩], 2⟩ |>.map Review.id).Nodup) ∧
    1 < 2 :=
  insert_ids_monotonic ⟨[], 1⟩ ⟨[⟨1, "a", "neutral", "t"⟩], 2⟩
    ⟨[⟨1, "a", "neutral", "t"⟩, ⟨2, "b", "neutral", "t"⟩], 3⟩
    "a" "neutral" "t" "b" "neutral" "t" 1 2
    (by decide) (by decide) (by decide)

lemma insertionSort_strict (rows : List Review)
    (hn : (rows.map Review.id).Nodup) :
    List.Pairwise (fun a b : Review => a.id < b.id) (List.insertionSort idLe rows) := by
  have hperm : (List.insertionSort idLe rows).Perm rows :=
    List.perm_insertionSort idLe rows
  have hsorted : List.Pairwise idLe (List.insertionSort idLe rows) :=
    List.sorted_insertionSort idLe rows
  have hmapsorted :
      List.Sorted (· ≤ ·) ((List.insertionSort idLe rows).map Review.id) :=
    List.pairwise_map.mpr (hsorted.imp (fun hab => hab))
  have hmapnodup : ((List.insertionSort idLe rows).map Review.id).Nodup :=
    ((hperm.map Review.id).symm).nodup hn
  exact List.pairwise_map.mp (hmapsorted.lt_of_le hmapnodup)

/-- C5: for every table state with unique ids and every filter value,
the list query returns exactly the reviews whose stored sentiment equals
the filter (every review when no filter is supplied), in strictly
ascending id order. -/
theorem sqlGetReviews_ordered (table : List Review) (filt : Option String)
    (hids : (table.map Review.id).Nodup) :
    (∀ r : Review, r ∈ sqlGetReviews table filt ↔
        r ∈ table ∧ ∀ v, filt = some v → r.sentiment = v) ∧
    List.Pairwise (fun a b : Review => a.id < b.id) (sqlGetReviews table filt) := by
  cases filt with
  | none =>
      refine ⟨fun r => ?_, insertionSort_strict table hids⟩
      rw [show sqlGetReviews table none = List.insertionSort idLe table from rfl,
        List.mem_insertionSort]
      exact ⟨fun hr => ⟨hr, fun v hv => nomatch hv⟩, fun hr => hr.1⟩
  | some f =>
      have hsub : ((table.filter (fun r => r.sentiment == f)).map Review.id).Nodup :=
        ((List.filter_sublist table).map Review.id).nodup hids
      refine ⟨fun r => ?_, insertionSort_strict _ hsub⟩
      rw [show sqlGetReviews table (some f) =
            List.insertionSort idLe (table.filter (fun r => r.sentiment == f)) from rfl,
        List.mem_insertionSort, List.mem_filter]
      constructor
      · rintro ⟨hr, hs⟩
        exact ⟨hr, fun v hv => by
          cases hv
          exact beq_iff_eq.mp hs⟩
      · rintro ⟨hr, hs⟩
        exact ⟨hr, beq_iff_eq.mpr (hs f rfl)⟩

theorem sqlGetReviews_ordered_witness :
    (∀ r : Review,
        r ∈ sqlGetReviews [⟨2, "a", "positive", "t"⟩, ⟨1, "b", "negative", "t"⟩]
              (some "positive") ↔
          r ∈ [⟨2, "a", "positive", "t"⟩, ⟨1, "b", "negative", "t"⟩] ∧
            ∀ v, (some "positive" : Option String) = some v → r.sentiment = v) ∧
    List.Pairwise (fun a b : Review => a.id < b.id)
      (sqlGetReviews [⟨2, "a", "positive", "t"⟩, ⟨1, "b", "negative", "t"⟩]
        (some "positive")) :=
  sqlGetReviews_ordered [⟨2, "a", "positive", "t"⟩, ⟨1, "b", "negative", "t"⟩]
    (some "positive") (by decide)

/-! ### Claims about the HTTP handlers -/

/-- C6 counterexample: "POSITIVE" is none of the exact strings "positive",
"negative", "neutral" and is not empty, yet the handler normalizes it with
strip().lower() and answers 200 with the listing instead of 400. -/
theorem get_reviews_exact_value_counterexample :
    ("POSITIVE" ≠ "positive" ∧ "POSITIVE" ≠ "negative" ∧
      "POSITIVE" ≠ "neutral" ∧ "POSITIVE" ≠ "") ∧
    get_reviews [] "POSITIVE" = GetResult.ok [] := by decide

/-- C6 amended: for every request whose sentiment parameter, after stripping
leading/trailing whitespace and lowercasing, is not one of "positive",
"negative", "neutral" and not empty, the handler answers 400 before any
query executes; the handler never modifies the table. -/
theorem get_reviews_invalid_filter (table : List Review) (v : String)
    (h1 : pyLower (pyStrip v) ≠ "positive")
    (h2 : pyLower (pyStrip v) ≠ "negative")
    (h3 : pyLower (pyStrip v) ≠ "neutral")
    (h4 : pyLower (pyStrip v) ≠ "") :
    get_reviews table v = GetResult.badRequest := by
  have hc : (pyLower (pyStrip v) == "positive" || pyLower (pyStrip v) == "negative" ||
      pyLower (pyStrip v) == "neutral" || pyLower (pyStrip v) == "") = false := by
    simp [h1, h2, h3, h4]
  simp [get_reviews, hc]

theorem get_reviews_invalid_filter_witness :
    get_reviews [] "bogus" = GetResult.badRequest :=
  get_reviews_invalid_filter [] "bogus" (by decide) (by decide) (by decide) (by decide)

lemma head?_dropWhile_space (l : List Char) (c : Char)
    (h : (l.dropWhile isPySpace).head? = some c) : isPySpace c = false := by
  have hh := List.head?_dropWhile_not isPySpace l
  rw [h] at hh
  exact hh

lemma pyStrip_no_edge_space (t : String) :
    (∀ c, (pyStrip t).toList.head? = some c → isPySpace c = false) ∧
    (∀ c, (pyStrip t).toList.getLast? = some c → isPySpace c = false) := by
  have hres : (pyStrip t).toList =
      ((t.toList.dropWhile isPySpace).reverse.dropWhile isPySpace).reverse := rfl
  constructor
  · intro c hc
    rw [hres, List.head?_reverse] at hc
    rcases List.dropWhile_suffix
        (l := (t.toList.dropWhile isPySpace).reverse) isPySpace with ⟨pre, hpre⟩
    have hlast : ((t.toList.dropWhile isPySpace).reverse).getLast? = some c := by
      rw [← hpre, List.getLast?_append, hc]
      rfl
    rw [List.getLast?_reverse] at hlast
    exact head?_dropWhile_space t.toList c hlast
  · intro c hc
    rw [hres, List.getLast?_reverse] at hc
    exact head?_dropWhile_space _ c hc

/-- C7 counterexample: a body whose text attribute is all whitespace is
accepted and persisted with empty text (HTTP 200); no non-empty check
exists on the insert path. -/
theorem add_review_empty_text_counterexample :
    (add_review ⟨[], 1⟩ (some "   ") "t").2.table = [⟨1, "", "neutral", "t"⟩] ∧
    (add_review ⟨[], 1⟩ (some "   ") "t").1 = PostResult.ok ⟨1, "", "neutral", "t"⟩ := by
  decide

/-- C7 amended: every review persisted through the insert path stores the
request text trimmed of leading and trailing whitespace before
classification (its first and last characters are never whitespace), and a
request missing the text attribute is rejected as a client error without
changing persisted state; a text that trims to the empty string is,
however, accepted and persisted with empty text. -/
theorem add_review_text_trimmed (st : Store) (t now : String) :
    add_review st none now = (PostResult.badRequest, st) ∧
    (add_review st (some t) now).2 =
      ⟨st.table ++ [⟨st.nextId, pyStrip t, sentiment_comment (pyStrip t), now⟩],
        st.nextId + 1⟩ ∧
    (∀ c, (pyStrip t).toList.head? = some c → isPySpace c = false) ∧
    (∀ c, (pyStrip t).toList.getLast? = some c → isPySpace c = false) := by
  refine ⟨rfl, ?_, (pyStrip_no_edge_space t).1, (pyStrip_no_edge_space t).2⟩
  have hv := validSentiment_sentiment_comment (pyStrip t)
  simp [add_review, insertReview, hv]

theorem add_review_text_trimmed_witness :
    add_review ⟨[], 1⟩ none "t" = (PostResult.badRequest, ⟨[], 1⟩) :=
  (add_review_text_trimmed ⟨[], 1⟩ " hi " "t").1

end Sentiment
